import Mathlib

/-!
Shallow embedding of the AirDAW audio engine core (`src/audio_engine.c`,
`src/audio_engine.h`).

Floating-point samples, gains, phases and meter values are modelled as real
numbers; the results of the external miniaudio calls (`ma_device_init`,
`ma_device_start`) are modelled as boolean inputs to `audio_engine_init`.
The static per-track filter-state arrays of `process_track_effects` are
modelled as an explicit map `ℕ → ℝ × ℝ` threaded through the callback.
-/

namespace AirDAW

open Real

/-- `#define MAX_TRACKS 16` -/
def MAX_TRACKS : ℕ := 16

/-- `#define SAMPLE_RATE 48000` -/
def SAMPLE_RATE : ℝ := 48000

/-- `#define CHANNELS 2` -/
def CHANNELS : ℕ := 2

/-- `#define MAX_EFFECTS_PER_TRACK 8` -/
def MAX_EFFECTS_PER_TRACK : ℕ := 8

/-- `typedef enum { EFFECT_NONE, EFFECT_GAIN, EFFECT_LOWPASS, EFFECT_HIGHPASS,
EFFECT_DELAY, EFFECT_REVERB } EffectType;` -/
inductive EffectType where
  | NONE
  | GAIN
  | LOWPASS
  | HIGHPASS
  | DELAY
  | REVERB
deriving DecidableEq, Repr

/-- `struct { float gain; } gain_params` -/
structure GainParams where
  gain : ℝ

/-- `struct { float cutoff; float resonance; } filter_params` -/
structure FilterParams where
  cutoff : ℝ
  resonance : ℝ

/-- `struct { float time_ms; float feedback; float mix; } delay_params` -/
structure DelayParams where
  time_ms : ℝ
  feedback : ℝ
  mix : ℝ

/-- `struct { float room_size; float damping; float mix; } reverb_params` -/
structure ReverbParams where
  room_size : ℝ
  damping : ℝ
  mix : ℝ

/-- The `Effect` struct.  The C source stores the four parameter blocks in an
anonymous union; since `type` is immutable after creation and every access is
dispatched on `type`, the union is modelled as a product of the four blocks. -/
structure Effect where
  type : EffectType
  enabled : Bool
  gain_params : GainParams
  filter_params : FilterParams
  delay_params : DelayParams
  reverb_params : ReverbParams

/-- The `Track` struct.  The fixed `effects[MAX_EFFECTS_PER_TRACK]` array with
its `effect_count` is modelled as a list holding the live prefix; `name[64]`
is modelled as a string.  The `atomic_bool playing` is a boolean (its value as
observed by the callback's `atomic_load`). -/
structure Track where
  name : String
  volume : ℝ
  pan : ℝ
  mute : Bool
  solo : Bool
  armed : Bool
  frequency : ℝ
  phase : ℝ
  playing : Bool
  effects : List Effect
  peak_level : ℝ × ℝ
  rms_level : ℝ × ℝ

/-- The `AudioEngine` struct (device, device-config and log handles are
external miniaudio state and are not modelled).  `tracks`/`track_count` are
modelled as a list holding the live prefix, so `track_count` is
`tracks.length`. -/
structure AudioEngine where
  tracks : List Track
  master_volume : ℝ
  master_peak : ℝ × ℝ
  master_rms : ℝ × ℝ
  playing : Bool
  initialized : Bool

/-- `track_count` of the engine: the number of live tracks. -/
def AudioEngine.track_count (e : AudioEngine) : ℕ := e.tracks.length

/-- `process_gain_effect` (audio_engine.c:45-48). -/
noncomputable def process_gain_effect (sample : ℝ) (effect : Effect) : ℝ :=
  if !effect.enabled then sample
  else sample * effect.gain_params.gain

/-- `process_lowpass_effect` (audio_engine.c:50-59): returns the output sample
together with the updated filter state (the C code writes the state through a
pointer). -/
noncomputable def process_lowpass_effect (sample : ℝ) (effect : Effect) (state : ℝ) :
    ℝ × ℝ :=
  if !effect.enabled then (sample, state)
  else
    let cutoff := effect.filter_params.cutoff
    let alpha := cutoff / (cutoff + 1)
    let state' := alpha * sample + (1 - alpha) * state
    (state', state')

/-- `process_highpass_effect` (audio_engine.c:61-70): returns the output sample
together with the updated filter state. -/
noncomputable def process_highpass_effect (sample : ℝ) (effect : Effect) (state : ℝ) :
    ℝ × ℝ :=
  if !effect.enabled then (sample, state)
  else
    let cutoff := effect.filter_params.cutoff
    let alpha := 1 / (cutoff + 1)
    let output := sample - state
    (output, state + alpha * output)

/-- Runs a stateful per-sample transform over a whole buffer, threading the
filter state (the per-effect inner frame loop of `process_track_effects`). -/
noncomputable def runFilterBuf (f : ℝ → ℝ → ℝ × ℝ) : ℝ → List ℝ → List ℝ × ℝ
  | s, [] => ([], s)
  | s, x :: xs =>
    let ys := f x s
    let rest := runFilterBuf f ys.2 xs
    (ys.1 :: rest.1, rest.2)

/-- One iteration of the `for (int i = 0; i < track->effect_count; i++)` loop
body of `process_track_effects` (audio_engine.c:77-113): applies one effect to
the left and right buffers, threading this track's static filter states. -/
noncomputable def processOneEffect (effect : Effect)
    (left right : List ℝ) (state_l state_r : ℝ) :
    List ℝ × List ℝ × ℝ × ℝ :=
  match effect.type with
  | EffectType.GAIN =>
      (left.map (fun s => process_gain_effect s effect),
       right.map (fun s => process_gain_effect s effect), state_l, state_r)
  | EffectType.LOWPASS =>
      let l := runFilterBuf (fun s st => process_lowpass_effect s effect st) state_l left
      let r := runFilterBuf (fun s st => process_lowpass_effect s effect st) state_r right
      (l.1, r.1, l.2, r.2)
  | EffectType.HIGHPASS =>
      let l := runFilterBuf (fun s st => process_highpass_effect s effect st) state_l left
      let r := runFilterBuf (fun s st => process_highpass_effect s effect st) state_r right
      (l.1, r.1, l.2, r.2)
  | _ => (left, right, state_l, state_r)

/-- `process_track_effects` (audio_engine.c:72-114): the effects of the track
are applied in list order; the static `filter_state_l/r[track_idx]` cells are
the explicit `state_l`/`state_r` arguments, returned updated. -/
noncomputable def process_track_effects :
    List Effect → List ℝ → List ℝ → ℝ → ℝ → List ℝ × List ℝ × ℝ × ℝ
  | [], left, right, state_l, state_r => (left, right, state_l, state_r)
  | effect :: rest, left, right, state_l, state_r =>
    let step := processOneEffect effect left right state_l state_r
    process_track_effects rest step.1 step.2.1 step.2.2.1 step.2.2.2

/-- One phase advance of the oscillator (audio_engine.c:170-173):
`phase += 2π·frequency/SAMPLE_RATE; if (phase > 2π) phase -= 2π;`. -/
noncomputable def stepPhase (phase frequency : ℝ) : ℝ :=
  let p := phase + 2 * Real.pi * frequency / SAMPLE_RATE
  if p > 2 * Real.pi then p - 2 * Real.pi else p

/-- The oscillator phase before generating sample `i`, starting from `phase`. -/
noncomputable def phaseAt (phase frequency : ℝ) : ℕ → ℝ
  | 0 => phase
  | i + 1 => stepPhase (phaseAt phase frequency i) frequency

/-- The sine-oscillator / constant-power-panning generation loop of the
callback (audio_engine.c:168-182): produces the pre-effects `temp_left` and
`temp_right` buffers and the final phase. -/
noncomputable def oscFrames (volume pan frequency : ℝ) : ℝ → ℕ → List ℝ × List ℝ × ℝ
  | phase, 0 => ([], [], phase)
  | phase, n + 1 =>
    let sample := Real.sin phase * volume * 0.3
    let left_gain := Real.cos ((pan + 1) * Real.pi / 4)
    let right_gain := Real.sin ((pan + 1) * Real.pi / 4)
    let rest := oscFrames volume pan frequency (stepPhase phase frequency) n
    (sample * left_gain :: rest.1, sample * right_gain :: rest.2.1, rest.2.2)

/-- Peak metering over one channel's period buffer (audio_engine.c:195-198):
the track's peak field is reset to `0` and raised to each `|sample|`. -/
noncomputable def trackMeterPeak (xs : List ℝ) : ℝ :=
  xs.foldl (fun m x => max m |x|) 0

/-- RMS metering over one channel's period buffer (audio_engine.c:199-205):
the squares are accumulated from `0`, then `sqrtf(acc / frame_count)`. -/
noncomputable def trackMeterRms (frame_count : ℕ) (xs : List ℝ) : ℝ :=
  Real.sqrt ((xs.foldl (fun a x => a + x * x) 0) / frame_count)

/-- The per-track skip test of the mix loop (audio_engine.c:153-155):
`if (track->mute || !atomic_load(&track->playing)) continue;`
`if (any_solo && !track->solo) continue;`. -/
def trackSkipped (any_solo : Bool) (track : Track) : Bool :=
  track.mute || !track.playing || (any_solo && !track.solo)

/-- The body of the mix loop for a non-skipped track (audio_engine.c:157-205):
resets the meters, generates the oscillator frames, runs the effects chain
(only when `effect_count > 0`, as in the source), and computes the meters.
Returns the updated track, the updated filter-state pair for this track, and
the post-effects left/right buffers that are summed into the output. -/
noncomputable def processTrack (frame_count : ℕ) (track : Track) (fstate : ℝ × ℝ) :
    Track × (ℝ × ℝ) × List ℝ × List ℝ :=
  let gen := oscFrames track.volume track.pan track.frequency track.phase frame_count
  let eff :=
    if track.effects.length > 0 then
      process_track_effects track.effects gen.1 gen.2.1 fstate.1 fstate.2
    else (gen.1, gen.2.1, fstate.1, fstate.2)
  let left := eff.1
  let right := eff.2.1
  ({ track with
      phase := gen.2.2
      peak_level := (trackMeterPeak left, trackMeterPeak right)
      rms_level := (trackMeterRms frame_count left, trackMeterRms frame_count right) },
   (eff.2.2.1, eff.2.2.2), left, right)

/-- `out[i*2+0] += temp_left[i]; out[i*2+1] += temp_right[i];`
(audio_engine.c:191-192), on the output buffer viewed as frame pairs. -/
noncomputable def addBuffers (out : List (ℝ × ℝ)) (left right : List ℝ) :
    List (ℝ × ℝ) :=
  List.zipWith (fun p q => (p.1 + q.1, p.2 + q.2)) out (left.zip right)

/-- The `for (int t = 0; t < engine->track_count; t++)` mix loop of the
callback (audio_engine.c:150-206): `tIdx` is the index of the first track of
the remaining list, `fbank` the static filter-state arrays indexed by track,
`out` the output buffer being accumulated.  Returns the updated tracks, the
updated filter bank and the accumulated output. -/
noncomputable def mixTracks (any_solo : Bool) (frame_count : ℕ) :
    ℕ → List Track → (ℕ → ℝ × ℝ) → List (ℝ × ℝ) →
    List Track × (ℕ → ℝ × ℝ) × List (ℝ × ℝ)
  | _, [], fbank, out => ([], fbank, out)
  | tIdx, track :: rest, fbank, out =>
    if trackSkipped any_solo track then
      let r := mixTracks any_solo frame_count (tIdx + 1) rest fbank out
      (track :: r.1, r.2.1, r.2.2)
    else
      let p := processTrack frame_count track (fbank tIdx)
      let fbank' := fun i => if i = tIdx then p.2.1 else fbank i
      let out' := addBuffers out p.2.2.1 p.2.2.2
      let r := mixTracks any_solo frame_count (tIdx + 1) rest fbank' out'
      (p.1 :: r.1, r.2.1, r.2.2)

/-- `any_solo` computation of the callback (audio_engine.c:141-147). -/
def anySolo (tracks : List Track) : Bool := tracks.any (fun t => t.solo)

/-- `audio_callback` (audio_engine.c:120-225).  The output buffer is modelled
as a list of `frame_count` interleaved stereo frame pairs; the static filter
arrays of `process_track_effects` are the explicit `fbank` argument, returned
updated.  If the engine is not playing the buffer is zeroed and the callback
returns immediately; otherwise the buffer is zeroed, the tracks are mixed,
master volume is applied and the master meters are computed over the
post-scaling buffer. -/
noncomputable def audio_callback (engine : AudioEngine) (fbank : ℕ → ℝ × ℝ)
    (frame_count : ℕ) :
    AudioEngine × (ℕ → ℝ × ℝ) × List (ℝ × ℝ) :=
  if !engine.playing then
    (engine, fbank, List.replicate frame_count ((0 : ℝ), (0 : ℝ)))
  else
    let any_solo := anySolo engine.tracks
    let m := mixTracks any_solo frame_count 0 engine.tracks fbank
      (List.replicate frame_count ((0 : ℝ), (0 : ℝ)))
    let out := m.2.2.map (fun p => (p.1 * engine.master_volume, p.2 * engine.master_volume))
    ({ engine with
        tracks := m.1
        master_peak := (trackMeterPeak (out.map Prod.fst), trackMeterPeak (out.map Prod.snd))
        master_rms := (trackMeterRms frame_count (out.map Prod.fst),
                       trackMeterRms frame_count (out.map Prod.snd)) },
     m.2.1, out)

/-- The interleaved stereo view of the output buffer:
frame pair `i` occupies float slots `2i` and `2i+1`. -/
def interleave : List (ℝ × ℝ) → List ℝ
  | [] => []
  | p :: ps => p.1 :: p.2 :: interleave ps

/-- `audio_engine_init` (audio_engine.c:231-278).  The outcomes of the
external miniaudio calls `ma_device_init` and `ma_device_start` are the
boolean inputs `device_init_ok` and `device_start_ok`; log/device handle
management is external and not modelled.  Returns the updated engine and the
boolean result. -/
def audio_engine_init (engine : AudioEngine)
    (device_init_ok device_start_ok : Bool) : AudioEngine × Bool :=
  let e := { engine with master_volume := (0.75 : ℝ), tracks := [], playing := false }
  if !device_init_ok then (e, false)
  else if !device_start_ok then (e, false)
  else ({ e with initialized := true }, true)

/-- The freshly initialized track appended by `audio_engine_add_track`
(audio_engine.c:302-311); `snprintf` into `char name[64]` keeps at most 63
characters of the caller's name. -/
def mkTrack (name : String) (frequency : ℝ) : Track :=
  { name := name.take 63
    volume := (0.75 : ℝ)
    pan := (0 : ℝ)
    mute := false
    solo := false
    armed := false
    frequency := frequency
    phase := (0 : ℝ)
    playing := false
    effects := []
    peak_level := ((0 : ℝ), (0 : ℝ))
    rms_level := ((0 : ℝ), (0 : ℝ)) }

/-- `audio_engine_add_track` (audio_engine.c:293-315): returns the updated
engine and the new index, or `-1` when the track array is full.  The meter
fields of a fresh slot are the zeroes the engine struct starts from (the
function itself writes only the documented fields). -/
def audio_engine_add_track (engine : AudioEngine) (name : String) (frequency : ℝ) :
    AudioEngine × Int :=
  if engine.tracks.length ≥ MAX_TRACKS then (engine, -1)
  else ({ engine with tracks := engine.tracks ++ [mkTrack name frequency] },
        (engine.tracks.length : Int))

/-- Default parameters of a freshly added effect (audio_engine.c:327-349);
blocks not selected by the kind keep the zero bytes of a fresh slot. -/
def defaultEffect (type : EffectType) : Effect :=
  { type := type
    enabled := true
    gain_params :=
      { gain := if type = EffectType.GAIN then (1 : ℝ) else 0 }
    filter_params :=
      if type = EffectType.LOWPASS ∨ type = EffectType.HIGHPASS then
        { cutoff := (1000 : ℝ), resonance := (1 : ℝ) }
      else { cutoff := 0, resonance := 0 }
    delay_params :=
      if type = EffectType.DELAY then
        { time_ms := (250 : ℝ), feedback := (0.3 : ℝ), mix := (0.5 : ℝ) }
      else { time_ms := 0, feedback := 0, mix := 0 }
    reverb_params :=
      if type = EffectType.REVERB then
        { room_size := (0.5 : ℝ), damping := (0.5 : ℝ), mix := (0.3 : ℝ) }
      else { room_size := 0, damping := 0, mix := 0 } }

/-- `audio_engine_add_effect` (audio_engine.c:317-352). -/
def audio_engine_add_effect (track : Track) (type : EffectType) : Track :=
  if track.effects.length ≥ MAX_EFFECTS_PER_TRACK then track
  else { track with effects := track.effects ++ [defaultEffect type] }

/-- `audio_engine_remove_effect` (audio_engine.c:354-367): shift-compaction
removal at `effect_index`; out-of-range indices are rejected. -/
def audio_engine_remove_effect (track : Track) (effect_index : Int) : Track :=
  if effect_index < 0 ∨ effect_index ≥ (track.effects.length : Int) then track
  else { track with effects := track.effects.eraseIdx effect_index.toNat }

/-- `audio_engine_toggle_effect` (audio_engine.c:369-379). -/
def audio_engine_toggle_effect (track : Track) (effect_index : Int) : Track :=
  if effect_index < 0 ∨ effect_index ≥ (track.effects.length : Int) then track
  else
    { track with
        effects := track.effects.modify
          (fun e => { e with enabled := !e.enabled }) effect_index.toNat }

/-- `audio_engine_set_effect_param` (audio_engine.c:381-404): dispatch by
`(type, param_index)`; any other `param_index` falls through the `if` chain
and leaves the effect unchanged. -/
def audio_engine_set_effect_param (effect : Effect) (param_index : Int) (value : ℝ) :
    Effect :=
  match effect.type with
  | EffectType.GAIN =>
      if param_index = 0 then
        { effect with gain_params := { gain := value } }
      else effect
  | EffectType.LOWPASS | EffectType.HIGHPASS =>
      if param_index = 0 then
        { effect with filter_params := { effect.filter_params with cutoff := value } }
      else if param_index = 1 then
        { effect with filter_params := { effect.filter_params with resonance := value } }
      else effect
  | EffectType.DELAY =>
      if param_index = 0 then
        { effect with delay_params := { effect.delay_params with time_ms := value } }
      else if param_index = 1 then
        { effect with delay_params := { effect.delay_params with feedback := value } }
      else if param_index = 2 then
        { effect with delay_params := { effect.delay_params with mix := value } }
      else effect
  | EffectType.REVERB =>
      if param_index = 0 then
        { effect with reverb_params := { effect.reverb_params with room_size := value } }
      else if param_index = 1 then
        { effect with reverb_params := { effect.reverb_params with damping := value } }
      else if param_index = 2 then
        { effect with reverb_params := { effect.reverb_params with mix := value } }
      else effect
  | EffectType.NONE => effect

/-- The `(kind, param_index)` pairs that reach an assignment in the dispatch
of `audio_engine_set_effect_param` (audio_engine.c:381-404). -/
def validParamIdx (type : EffectType) (param_index : Int) : Bool :=
  match type with
  | EffectType.GAIN => param_index == 0
  | EffectType.LOWPASS | EffectType.HIGHPASS =>
      param_index == 0 || param_index == 1
  | EffectType.DELAY | EffectType.REVERB =>
      param_index == 0 || param_index == 1 || param_index == 2
  | EffectType.NONE => false

/-- The filter state after `k` per-sample iterations of
`process_lowpass_effect`, fed the input sequence `x` from initial state `s0`. -/
noncomputable def lowpassStateIter (effect : Effect) (x : ℕ → ℝ) (s0 : ℝ) : ℕ → ℝ
  | 0 => s0
  | k + 1 => (process_lowpass_effect (x k) effect (lowpassStateIter effect x s0 k)).2

/-- The output of the `k`-th per-sample iteration of `process_lowpass_effect`. -/
noncomputable def lowpassOutIter (effect : Effect) (x : ℕ → ℝ) (s0 : ℝ) (k : ℕ) : ℝ :=
  (process_lowpass_effect (x k) effect (lowpassStateIter effect x s0 k)).1

/-- The filter state after `k` per-sample iterations of
`process_highpass_effect`, fed the input sequence `x` from initial state `s0`. -/
noncomputable def highpassStateIter (effect : Effect) (x : ℕ → ℝ) (s0 : ℝ) : ℕ → ℝ
  | 0 => s0
  | k + 1 => (process_highpass_effect (x k) effect (highpassStateIter effect x s0 k)).2

/-- The output of the `k`-th per-sample iteration of `process_highpass_effect`. -/
noncomputable def highpassOutIter (effect : Effect) (x : ℕ → ℝ) (s0 : ℝ) (k : ℕ) : ℝ :=
  (process_highpass_effect (x k) effect (highpassStateIter effect x s0 k)).1

/-- Pointwise sum of two frame-pair buffers (the shape in which a processed
track's buffers are accumulated into the output buffer). -/
noncomputable def addPair (out contribution : List (ℝ × ℝ)) : List (ℝ × ℝ) :=
  List.zipWith (fun p q => (p.1 + q.1, p.2 + q.2)) out contribution

/-- The frame pairs a single track adds to the output buffer during one
period: the zero buffer when the track is skipped by the eligibility test,
its post-effects left/right buffers otherwise. -/
noncomputable def trackContribution (any_solo : Bool) (frame_count : ℕ)
    (track : Track) (fstate : ℝ × ℝ) : List (ℝ × ℝ) :=
  if trackSkipped any_solo track then List.replicate frame_count (0, 0)
  else ((processTrack frame_count track fstate).2.2.1).zip
       ((processTrack frame_count track fstate).2.2.2)

/-- The per-track contributions of the mix loop, in track order, threading
the filter bank exactly as `mixTracks` does. -/
noncomputable def contribs (any_solo : Bool) (frame_count : ℕ) :
    ℕ → List Track → (ℕ → ℝ × ℝ) → List (List (ℝ × ℝ))
  | _, [], _ => []
  | tIdx, track :: rest, fbank =>
    if trackSkipped any_solo track then
      trackContribution any_solo frame_count track (fbank tIdx) ::
        contribs any_solo frame_count (tIdx + 1) rest fbank
    else
      let p := processTrack frame_count track (fbank tIdx)
      trackContribution any_solo frame_count track (fbank tIdx) ::
        contribs any_solo frame_count (tIdx + 1) rest
          (fun i => if i = tIdx then p.2.1 else fbank i)

/-- A concrete engine with no tracks, used to instantiate theorems. -/
def engineZero : AudioEngine :=
  { tracks := []
    master_volume := (0.75 : ℝ)
    master_peak := (0, 0)
    master_rms := (0, 0)
    playing := false
    initialized := false }

/-- A concrete engine whose `master_volume` is `0.5`, used to exhibit the
mutation `audio_engine_init` performs on its failure paths. -/
def engineHalf : AudioEngine :=
  { tracks := []
    master_volume := (0.5 : ℝ)
    master_peak := (0, 0)
    master_rms := (0, 0)
    playing := false
    initialized := false }

/-- A concrete muted, playing track, used to instantiate theorems. -/
def mutedTrack : Track :=
  { mkTrack "Muted" 440 with mute := true, playing := true }

/-- A concrete playing engine holding one muted track, used to instantiate
theorems. -/
def enginePlayingMuted : AudioEngine :=
  { tracks := [mutedTrack]
    master_volume := (0.75 : ℝ)
    master_peak := (0, 0)
    master_rms := (0, 0)
    playing := true
    initialized := true }

/-- A concrete enabled lowpass effect with cutoff 1, used to instantiate
theorems. -/
def effectLP1 : Effect :=
  { type := EffectType.LOWPASS
    enabled := true
    gain_params := { gain := 0 }
    filter_params := { cutoff := 1, resonance := 1 }
    delay_params := { time_ms := 0, feedback := 0, mix := 0 }
    reverb_params := { room_size := 0, damping := 0, mix := 0 } }

/-! ### Helper lemmas -/

theorem interleave_replicate_zero (n : ℕ) :
    interleave (List.replicate n ((0 : ℝ), (0 : ℝ))) = List.replicate (n * 2) 0 := by
  induction n with
  | zero => rfl
  | succ k ih =>
      have h2 : (k + 1) * 2 = (k * 2 + 1) + 1 := by ring
      simp only [List.replicate_succ, interleave, ih, h2]

/-! ### C2 -/

/-- Claim C2: if the engine-level `playing` flag is false when the audio
callback runs, every one of the `frame_count * 2` floats of the interleaved
stereo output buffer is zero at the end of the callback, for every engine
state, filter bank and frame count. -/
theorem silence_on_stop (engine : AudioEngine) (fbank : ℕ → ℝ × ℝ)
    (frame_count : ℕ) (h : engine.playing = false) :
    interleave (audio_callback engine fbank frame_count).2.2 =
      List.replicate (frame_count * 2) 0 := by
  rw [audio_callback]
  simp only [h, Bool.not_false, if_pos]
  exact interleave_replicate_zero frame_count

/-- Witness for C2 at a concrete stopped engine. -/
theorem silence_on_stop_witness :
    interleave (audio_callback engineZero (fun _ => (0, 0)) 3).2.2 =
      List.replicate (3 * 2) 0 :=
  silence_on_stop engineZero (fun _ => (0, 0)) 3 rfl

/-! ### C5 -/

/-- Claim C5: with the track array full (`track_count = 16`), `add_track`
returns the sentinel `-1` and leaves the engine unchanged; otherwise it
returns the previous `track_count` as the new index, increments `track_count`,
and appends a track initialized to `volume = 0.75`, `pan = 0`, `mute = solo =
armed = false`, `phase = 0`, no effects, `playing = false`, with the
caller-supplied name (`snprintf` keeps at most 63 characters) and frequency. -/
theorem add_track_spec (engine : AudioEngine) (name : String) (frequency : ℝ) :
    (engine.track_count = 16 →
      audio_engine_add_track engine name frequency = (engine, -1)) ∧
    (engine.track_count < 16 →
      (audio_engine_add_track engine name frequency).2 = (engine.track_count : Int) ∧
      (audio_engine_add_track engine name frequency).1.track_count =
        engine.track_count + 1 ∧
      (audio_engine_add_track engine name frequency).1.tracks =
        engine.tracks ++ [mkTrack name frequency] ∧
      (mkTrack name frequency).volume = 0.75 ∧
      (mkTrack name frequency).pan = 0 ∧
      (mkTrack name frequency).mute = false ∧
      (mkTrack name frequency).solo = false ∧
      (mkTrack name frequency).armed = false ∧
      (mkTrack name frequency).phase = 0 ∧
      (mkTrack name frequency).effects = [] ∧
      (mkTrack name frequency).playing = false ∧
      (mkTrack name frequency).name = name.take 63 ∧
      (mkTrack name frequency).frequency = frequency) := by
  constructor
  · intro h
    rw [AudioEngine.track_count] at h
    rw [audio_engine_add_track, if_pos (by rw [h]; decide)]
  · intro h
    rw [AudioEngine.track_count] at h
    rw [audio_engine_add_track, if_neg (by unfold MAX_TRACKS; omega)]
    refine ⟨rfl, by simp [AudioEngine.track_count], rfl, ?_⟩
    simp [mkTrack]

/-- Witness for C5: adding a track to an empty engine returns index 0 and a
track count of 1. -/
theorem add_track_spec_witness :
    (audio_engine_add_track engineZero "Bass" 110).2 = ((engineZero.track_count : Int)) ∧
    (audio_engine_add_track engineZero "Bass" 110).1.track_count =
      engineZero.track_count + 1 :=
  ⟨((add_track_spec engineZero "Bass" 110).2 (by decide)).1,
   ((add_track_spec engineZero "Bass" 110).2 (by decide)).2.1⟩

/-! ### C6 -/

/-- Claim C6: `add_effect` on a full chain (8 effects) leaves the track
unchanged; `remove_effect` and `toggle_effect` with an index outside
`[0, effect_count)` leave the track unchanged; `set_effect_param` with a
`param_index` that reaches no assignment for the effect's kind (e.g. index 1
for Gain, index 2 for LowPass or HighPass, any negative index) leaves the
effect unchanged. -/
theorem effect_api_noop (track : Track) (type : EffectType) (i : Int)
    (effect : Effect) (pidx : Int) (value : ℝ) :
    (track.effects.length = 8 → audio_engine_add_effect track type = track) ∧
    ((i < 0 ∨ i ≥ (track.effects.length : Int)) →
      audio_engine_remove_effect track i = track ∧
      audio_engine_toggle_effect track i = track) ∧
    (validParamIdx effect.type pidx = false →
      audio_engine_set_effect_param effect pidx value = effect) := by
  refine ⟨?_, ?_, ?_⟩
  · intro h
    rw [audio_engine_add_effect, if_pos]
    rw [h]; decide
  · intro h
    constructor
    · rw [audio_engine_remove_effect, if_pos h]
    · rw [audio_engine_toggle_effect, if_pos h]
  · intro h
    rcases effect with ⟨ty, en, gp, fp, dp, rp⟩
    cases ty <;>
      simp_all [validParamIdx, audio_engine_set_effect_param]

/-- Witness for C6: on a track with no effects, removing and toggling at
index `-1` are no-ops, and setting parameter 1 of a Gain effect is a no-op. -/
theorem effect_api_noop_witness :
    audio_engine_remove_effect (mkTrack "T" 440) (-1) = mkTrack "T" 440 ∧
    audio_engine_toggle_effect (mkTrack "T" 440) (-1) = mkTrack "T" 440 ∧
    audio_engine_set_effect_param (defaultEffect EffectType.GAIN) 1 2 =
      defaultEffect EffectType.GAIN :=
  ⟨((effect_api_noop (mkTrack "T" 440) EffectType.GAIN (-1)
      (defaultEffect EffectType.GAIN) 1 2).2.1 (Or.inl (by decide))).1,
   ((effect_api_noop (mkTrack "T" 440) EffectType.GAIN (-1)
      (defaultEffect EffectType.GAIN) 1 2).2.1 (Or.inl (by decide))).2,
   (effect_api_noop (mkTrack "T" 440) EffectType.GAIN (-1)
      (defaultEffect EffectType.GAIN) 1 2).2.2 (by decide)⟩

/-! ### C9 -/

/-- Counterexample to C9 as stated: on a failing `init` (device init fails),
the engine's `master_volume` is mutated from `0.5` to `0.75` (the function
resets `master_volume`, `track_count` and `playing` before attempting device
initialization), so a failure case does perform mutation of the listed shared
state. -/
theorem init_mutates_on_failure :
    (audio_engine_init engineHalf false false).2 = false ∧
    (audio_engine_init engineHalf false false).1.master_volume ≠
      engineHalf.master_volume := by
  constructor
  · rfl
  · show (0.75 : ℝ) ≠ (0.5 : ℝ)
    norm_num

/-- Claim C9 (amended): `init` returns true exactly when both device
initialization and device start succeed, and stores `initialized = true` only
in that success case; in every failure case it returns false, leaves
`initialized` unchanged, and the only mutations of the shared state are the
entry-time resets `master_volume = 0.75`, `track_count = 0`,
`playing = false`. -/
theorem init_spec (engine : AudioEngine) (device_init_ok device_start_ok : Bool) :
    ((audio_engine_init engine device_init_ok device_start_ok).2 = true ↔
      device_init_ok = true ∧ device_start_ok = true) ∧
    ((audio_engine_init engine device_init_ok device_start_ok).2 = true →
      (audio_engine_init engine device_init_ok device_start_ok).1.initialized = true) ∧
    ((audio_engine_init engine device_init_ok device_start_ok).2 = false →
      (audio_engine_init engine device_init_ok device_start_ok).1.initialized =
        engine.initialized ∧
      (audio_engine_init engine device_init_ok device_start_ok).1.master_volume = 0.75 ∧
      (audio_engine_init engine device_init_ok device_start_ok).1.track_count = 0 ∧
      (audio_engine_init engine device_init_ok device_start_ok).1.playing = false) := by
  cases device_init_ok <;> cases device_start_ok <;>
    simp [audio_engine_init, AudioEngine.track_count]

/-- Witness for C9 (amended): a failing start leaves `initialized` unchanged
and returns false. -/
theorem init_spec_witness :
    (audio_engine_init engineHalf true false).1.initialized =
      engineHalf.initialized ∧
    (audio_engine_init engineHalf true false).2 = false :=
  ⟨((init_spec engineHalf true false).2.2 rfl).1,
   by
     have h := (init_spec engineHalf true false).1
     rcases hr : (audio_engine_init engineHalf true false).2 with _ | _
     · rfl
     · exact absurd ((h.mp hr).2) (by decide)⟩

/-! ### C4 -/

theorem stepPhase_mem (p f : ℝ) (h0 : 0 ≤ p) (h1 : p ≤ 2 * Real.pi)
    (hf0 : 0 ≤ f) (hf1 : f ≤ SAMPLE_RATE) :
    0 ≤ stepPhase p f ∧ stepPhase p f ≤ 2 * Real.pi := by
  have hsr : SAMPLE_RATE = (48000 : ℝ) := rfl
  have hinc0 : 0 ≤ 2 * Real.pi * f / SAMPLE_RATE := by
    rw [hsr]; positivity
  have hinc1 : 2 * Real.pi * f / SAMPLE_RATE ≤ 2 * Real.pi := by
    rw [hsr] at hf1 ⊢
    rw [div_le_iff₀ (by norm_num)]
    nlinarith [Real.pi_pos]
  simp only [stepPhase]
  split_ifs with h
  · constructor <;> linarith
  · constructor <;> linarith

/-- Claim C4 (amended): for an initial phase in the closed interval
`[0, 2π]` and a frequency in `[0, SAMPLE_RATE]`, the per-sample advance by
`2π·frequency/SAMPLE_RATE` followed by the wrap-correction keeps the phase in
`[0, 2π]` for any run length.  (The half-open interval `[0, 2π)` of the
original claim is not invariant — the wrap uses a strict comparison, so the
phase can land exactly on `2π` — and for frequencies above the sample rate,
or negative frequencies, a single subtraction of `2π` cannot wrap the phase
back at all.) -/
theorem phase_wrap (phase frequency : ℝ) (h0 : 0 ≤ phase)
    (h1 : phase ≤ 2 * Real.pi) (hf0 : 0 ≤ frequency)
    (hf1 : frequency ≤ SAMPLE_RATE) (k : ℕ) :
    0 ≤ phaseAt phase frequency k ∧ phaseAt phase frequency k ≤ 2 * Real.pi := by
  induction k with
  | zero => exact ⟨h0, h1⟩
  | succ i ih =>
      have h := stepPhase_mem (phaseAt phase frequency i) frequency ih.1 ih.2 hf0 hf1
      exact ⟨h.1, h.2⟩

/-- Witness for C4 (amended) at a 440 Hz oscillator over 5 samples. -/
theorem phase_wrap_witness :
    0 ≤ phaseAt 0 440 5 ∧ phaseAt 0 440 5 ≤ 2 * Real.pi :=
  phase_wrap 0 440 le_rfl (by positivity) (by norm_num)
    (by show (440 : ℝ) ≤ (48000 : ℝ); norm_num) 5

theorem stepPhase72 (x : ℝ) :
    stepPhase x 72000 =
      if x + 3 * Real.pi > 2 * Real.pi then x + 3 * Real.pi - 2 * Real.pi
      else x + 3 * Real.pi := by
  have hinc : 2 * Real.pi * (72000 : ℝ) / SAMPLE_RATE = 3 * Real.pi := by
    show 2 * Real.pi * (72000 : ℝ) / (48000 : ℝ) = 3 * Real.pi
    ring
  simp only [stepPhase, hinc]

/-- Counterexample to C4 as stated: at frequency 72000 Hz (any frequency is
allowed by the claim) starting from phase 0, the phase after three samples is
`3π`, which does not lie in `[0, 2π)` — the single wrap subtraction cannot
keep up with a per-sample advance of `3π`. -/
theorem phase_wrap_counterexample :
    phaseAt 0 72000 3 = 3 * Real.pi ∧ ¬ phaseAt 0 72000 3 < 2 * Real.pi := by
  have hpi := Real.pi_pos
  have e1 : phaseAt (0 : ℝ) 72000 1 = stepPhase (phaseAt (0 : ℝ) 72000 0) 72000 := rfl
  have e0 : phaseAt (0 : ℝ) 72000 0 = 0 := rfl
  have s1 : phaseAt (0 : ℝ) 72000 1 = Real.pi := by
    rw [e1, e0, stepPhase72, if_pos (by linarith)]; ring
  have e2 : phaseAt (0 : ℝ) 72000 2 = stepPhase (phaseAt (0 : ℝ) 72000 1) 72000 := rfl
  have s2 : phaseAt (0 : ℝ) 72000 2 = 2 * Real.pi := by
    rw [e2, s1, stepPhase72, if_pos (by linarith)]; ring
  have e3 : phaseAt (0 : ℝ) 72000 3 = stepPhase (phaseAt (0 : ℝ) 72000 2) 72000 := rfl
  have s3 : phaseAt (0 : ℝ) 72000 3 = 3 * Real.pi := by
    rw [e3, s2, stepPhase72, if_pos (by linarith)]; ring
  refine ⟨s3, ?_⟩
  rw [s3]
  intro hlt
  linarith

/-! ### C3 -/

theorem phaseAt_succ_shift (phase frequency : ℝ) (i : ℕ) :
    phaseAt phase frequency (i + 1) =
      phaseAt (stepPhase phase frequency) frequency i := by
  induction i with
  | zero => rfl
  | succ j ih =>
      show stepPhase (phaseAt phase frequency (j + 1)) frequency =
        stepPhase (phaseAt (stepPhase phase frequency) frequency j) frequency
      rw [ih]

theorem oscFrames_getD (volume pan frequency : ℝ) :
    ∀ (n : ℕ) (phase : ℝ) (i : ℕ), i < n →
      (oscFrames volume pan frequency phase n).1.getD i 0 =
        Real.sin (phaseAt phase frequency i) * volume * 0.3 *
          Real.cos ((pan + 1) * Real.pi / 4) ∧
      (oscFrames volume pan frequency phase n).2.1.getD i 0 =
        Real.sin (phaseAt phase frequency i) * volume * 0.3 *
          Real.sin ((pan + 1) * Real.pi / 4) := by
  intro n
  induction n with
  | zero => intro phase i h; omega
  | succ m ih =>
      intro phase i h
      cases i with
      | zero =>
          constructor <;> rfl
      | succ j =>
          have hj : j < m := by omega
          have := ih (stepPhase phase frequency) j hj
          simp only [oscFrames, List.getD_cons_succ]
          rw [phaseAt_succ_shift]
          exact this

/-- Claim C3: for every included track the pre-effects buffers satisfy
`left[i] = sin(phase_i) · volume · 0.3 · cos((pan+1)·π/4)` and
`right[i] = sin(phase_i) · volume · 0.3 · sin((pan+1)·π/4)`, where `phase_i`
is the oscillator phase before generating sample `i`; consequently at
`pan = -1` the left gain is 1 and the right gain is 0, at `pan = +1` the left
gain is 0 and the right gain is 1, and at `pan = 0` both gains are equal. -/
theorem osc_panning_spec (volume pan frequency phase : ℝ) (n : ℕ) :
    (∀ i, i < n →
      (oscFrames volume pan frequency phase n).1.getD i 0 =
        Real.sin (phaseAt phase frequency i) * volume * 0.3 *
          Real.cos ((pan + 1) * Real.pi / 4) ∧
      (oscFrames volume pan frequency phase n).2.1.getD i 0 =
        Real.sin (phaseAt phase frequency i) * volume * 0.3 *
          Real.sin ((pan + 1) * Real.pi / 4)) ∧
    (Real.cos ((-1 + 1 : ℝ) * Real.pi / 4) = 1 ∧
     Real.sin ((-1 + 1 : ℝ) * Real.pi / 4) = 0) ∧
    (Real.cos ((1 + 1 : ℝ) * Real.pi / 4) = 0 ∧
     Real.sin ((1 + 1 : ℝ) * Real.pi / 4) = 1) ∧
    Real.cos ((0 + 1 : ℝ) * Real.pi / 4) = Real.sin ((0 + 1 : ℝ) * Real.pi / 4) := by
  refine ⟨fun i h => oscFrames_getD volume pan frequency n phase i h, ⟨?_, ?_⟩,
    ⟨?_, ?_⟩, ?_⟩
  · rw [show ((-1 + 1 : ℝ) * Real.pi / 4) = 0 by ring, Real.cos_zero]
  · rw [show ((-1 + 1 : ℝ) * Real.pi / 4) = 0 by ring, Real.sin_zero]
  · rw [show ((1 + 1 : ℝ) * Real.pi / 4) = Real.pi / 2 by ring, Real.cos_pi_div_two]
  · rw [show ((1 + 1 : ℝ) * Real.pi / 4) = Real.pi / 2 by ring, Real.sin_pi_div_two]
  · rw [show ((0 + 1 : ℝ) * Real.pi / 4) = Real.pi / 4 by ring,
      Real.cos_pi_div_four, Real.sin_pi_div_four]

/-- Witness for C3: the first pre-effects left sample of a one-frame period. -/
theorem osc_panning_spec_witness :
    (oscFrames 1 0 440 0 1).1.getD 0 0 =
      Real.sin (phaseAt 0 440 0) * 1 * 0.3 * Real.cos ((0 + 1) * Real.pi / 4) :=
  ((osc_panning_spec 1 0 440 0 1).1 0 (by decide)).1

/-! ### C8 -/

theorem lowpassState_bound (effect : Effect) (x : ℕ → ℝ) (s0 : ℝ)
    (hc : 0 < effect.filter_params.cutoff) (hx : ∀ i, |x i| ≤ 1) :
    ∀ k, |lowpassStateIter effect x s0 k| ≤ max 1 |s0| := by
  have hM1 : (1 : ℝ) ≤ max 1 |s0| := le_max_left _ _
  set c := effect.filter_params.cutoff with hcdef
  have hc1 : (0 : ℝ) < c + 1 := by linarith
  have ha0 : 0 ≤ c / (c + 1) := div_nonneg (le_of_lt hc) (le_of_lt hc1)
  have ha1 : c / (c + 1) ≤ 1 := by rw [div_le_one hc1]; linarith
  have h1a : 0 ≤ 1 - c / (c + 1) := by linarith
  intro k
  induction k with
  | zero => exact le_max_right 1 |s0|
  | succ j ih =>
      show |(process_lowpass_effect (x j) effect (lowpassStateIter effect x s0 j)).2| ≤ _
      simp only [process_lowpass_effect, ← hcdef]
      cases he : effect.enabled
      · simpa [he] using ih
      · simp only [he, Bool.not_true, Bool.false_eq_true, if_false]
        set s := lowpassStateIter effect x s0 j with hs
        calc |c / (c + 1) * x j + (1 - c / (c + 1)) * s|
            ≤ |c / (c + 1) * x j| + |(1 - c / (c + 1)) * s| := abs_add _ _
          _ = c / (c + 1) * |x j| + (1 - c / (c + 1)) * |s| := by
              rw [abs_mul, abs_mul, abs_of_nonneg ha0, abs_of_nonneg h1a]
          _ ≤ c / (c + 1) * 1 + (1 - c / (c + 1)) * max 1 |s0| :=
              add_le_add (mul_le_mul_of_nonneg_left (hx j) ha0)
                (mul_le_mul_of_nonneg_left ih h1a)
          _ ≤ max 1 |s0| := by nlinarith

theorem highpassState_bound (effect : Effect) (x : ℕ → ℝ) (s0 : ℝ)
    (hc : 0 < effect.filter_params.cutoff) (hx : ∀ i, |x i| ≤ 1) :
    ∀ k, |highpassStateIter effect x s0 k| ≤ max 1 |s0| := by
  have hM1 : (1 : ℝ) ≤ max 1 |s0| := le_max_left _ _
  set c := effect.filter_params.cutoff with hcdef
  have hc1 : (0 : ℝ) < c + 1 := by linarith
  have ha0 : 0 ≤ 1 / (c + 1) := by positivity
  have ha1 : 1 / (c + 1) ≤ 1 := by rw [div_le_one hc1]; linarith
  have h1a : 0 ≤ 1 - 1 / (c + 1) := by linarith
  intro k
  induction k with
  | zero => exact le_max_right 1 |s0|
  | succ j ih =>
      show |(process_highpass_effect (x j) effect (highpassStateIter effect x s0 j)).2| ≤ _
      simp only [process_highpass_effect, ← hcdef]
      cases he : effect.enabled
      · simpa [he] using ih
      · simp only [he, Bool.not_true, Bool.false_eq_true, if_false]
        set s := highpassStateIter effect x s0 j with hs
        have hrw : s + 1 / (c + 1) * (x j - s) =
            (1 - 1 / (c + 1)) * s + 1 / (c + 1) * x j := by ring
        rw [hrw]
        calc |(1 - 1 / (c + 1)) * s + 1 / (c + 1) * x j|
            ≤ |(1 - 1 / (c + 1)) * s| + |1 / (c + 1) * x j| := abs_add _ _
          _ = (1 - 1 / (c + 1)) * |s| + 1 / (c + 1) * |x j| := by
              rw [abs_mul, abs_mul, abs_of_nonneg ha0, abs_of_nonneg h1a]
          _ ≤ (1 - 1 / (c + 1)) * max 1 |s0| + 1 / (c + 1) * 1 :=
              add_le_add (mul_le_mul_of_nonneg_left ih h1a)
                (mul_le_mul_of_nonneg_left (hx j) ha0)
          _ ≤ max 1 |s0| := by nlinarith

/-- Claim C8: for every cutoff `> 0`, every initial filter state `s0` and
every input sequence bounded by `|x i| ≤ 1`, iterating the one-pole lowpass
update or the one-pole highpass update for arbitrarily many steps keeps the
output bounded: every lowpass output stays within `max 1 |s0|` and every
highpass output within `1 + max 1 |s0|`, bounds depending only on the initial
state. -/
theorem filters_bounded (effect : Effect) (x : ℕ → ℝ) (s0 : ℝ)
    (hc : 0 < effect.filter_params.cutoff) (hx : ∀ i, |x i| ≤ 1) :
    (∀ k, |lowpassOutIter effect x s0 k| ≤ max 1 |s0|) ∧
    (∀ k, |highpassOutIter effect x s0 k| ≤ 1 + max 1 |s0|) := by
  have hM1 : (1 : ℝ) ≤ max 1 |s0| := le_max_left _ _
  constructor
  · intro k
    show |(process_lowpass_effect (x k) effect (lowpassStateIter effect x s0 k)).1| ≤ _
    cases he : effect.enabled
    · simp only [process_lowpass_effect, he, Bool.not_false, if_true]
      exact le_trans (hx k) hM1
    · have : (process_lowpass_effect (x k) effect (lowpassStateIter effect x s0 k)).1 =
          (process_lowpass_effect (x k) effect (lowpassStateIter effect x s0 k)).2 := by
        simp only [process_lowpass_effect, he, Bool.not_true, Bool.false_eq_true, if_false]
      rw [this]
      exact lowpassState_bound effect x s0 hc hx (k + 1)
  · intro k
    show |(process_highpass_effect (x k) effect (highpassStateIter effect x s0 k)).1| ≤ _
    cases he : effect.enabled
    · simp only [process_highpass_effect, he, Bool.not_false, if_true]
      exact le_trans (hx k) (by linarith)
    · simp only [process_highpass_effect, he, Bool.not_true, Bool.false_eq_true, if_false]
      calc |x k - highpassStateIter effect x s0 k|
          ≤ |x k| + |highpassStateIter effect x s0 k| := abs_sub _ _
        _ ≤ 1 + max 1 |s0| :=
            add_le_add (hx k) (highpassState_bound effect x s0 hc hx k)

/-- Witness for C8: a unit-cutoff lowpass fed the constant signal 1 from
state 0 has first output within the bound. -/
theorem filters_bounded_witness :
    |lowpassOutIter effectLP1 (fun _ => 1) 0 0| ≤ max 1 |(0 : ℝ)| :=
  (filters_bounded effectLP1 (fun _ => 1) 0 (by norm_num [effectLP1])
    (fun i => by norm_num)).1 0

/-! ### C7 -/

theorem foldl_add_sq (xs : List ℝ) : ∀ a : ℝ,
    xs.foldl (fun a x => a + x * x) a = a + (xs.map (fun x => x * x)).sum := by
  induction xs with
  | nil => intro a; simp
  | cons y ys ih =>
      intro a
      simp only [List.foldl_cons, List.map_cons, List.sum_cons, ih]
      ring

theorem le_foldl_max (xs : List ℝ) : ∀ a : ℝ,
    a ≤ xs.foldl (fun m x => max m |x|) a := by
  induction xs with
  | nil => intro a; simp
  | cons y ys ih =>
      intro a
      exact le_trans (le_max_left a |y|) (ih (max a |y|))

theorem mem_le_foldl_max (xs : List ℝ) : ∀ (a : ℝ) (x : ℝ), x ∈ xs →
    |x| ≤ xs.foldl (fun m x => max m |x|) a := by
  induction xs with
  | nil => intro a x h; cases h
  | cons y ys ih =>
      intro a x h
      rcases List.mem_cons.mp h with h | h
      · subst h
        exact le_trans (le_max_right a |x|) (le_foldl_max ys (max a |x|))
      · exact ih (max a |y|) x h

theorem sumsq_le_of_bound (b : ℝ) : ∀ (ys : List ℝ), (∀ x ∈ ys, |x| ≤ b) →
    (ys.map (fun x => x * x)).sum ≤ ys.length * (b * b) := by
  intro ys
  induction ys with
  | nil => intro _; simp
  | cons y ys ih =>
      intro h
      have hy : |y| ≤ b := h y (List.mem_cons_self y ys)
      have hb0 : 0 ≤ b := le_trans (abs_nonneg y) hy
      have hyy : y * y ≤ b * b := by
        calc y * y = |y| * |y| := (abs_mul_abs_self y).symm
          _ ≤ b * b := mul_le_mul hy hy (abs_nonneg y) hb0
      have hrest := ih (fun x hx => h x (List.mem_cons_of_mem y hx))
      simp only [List.map_cons, List.sum_cons, List.length_cons]
      push_cast
      nlinarith

theorem sumsq_nonneg (xs : List ℝ) : 0 ≤ (xs.map (fun x => x * x)).sum := by
  apply List.sum_nonneg
  intro y hy
  rcases List.mem_map.mp hy with ⟨x, _, rfl⟩
  exact mul_self_nonneg x

theorem oscFrames_length (volume pan frequency : ℝ) : ∀ (n : ℕ) (phase : ℝ),
    (oscFrames volume pan frequency phase n).1.length = n ∧
    (oscFrames volume pan frequency phase n).2.1.length = n := by
  intro n
  induction n with
  | zero => intro phase; exact ⟨rfl, rfl⟩
  | succ m ih =>
      intro phase
      obtain ⟨h1, h2⟩ := ih (stepPhase phase frequency)
      simp [oscFrames, List.length_cons, h1, h2]

theorem runFilterBuf_length (f : ℝ → ℝ → ℝ × ℝ) : ∀ (xs : List ℝ) (s : ℝ),
    (runFilterBuf f s xs).1.length = xs.length := by
  intro xs
  induction xs with
  | nil => intro s; rfl
  | cons y ys ih =>
      intro s
      simp only [runFilterBuf, List.length_cons, ih]

theorem processOneEffect_length (effect : Effect) (left right : List ℝ)
    (state_l state_r : ℝ) :
    (processOneEffect effect left right state_l state_r).1.length = left.length ∧
    (processOneEffect effect left right state_l state_r).2.1.length = right.length := by
  rcases effect with ⟨ty, en, gp, fp, dp, rp⟩
  cases ty <;> simp [processOneEffect, runFilterBuf_length]

theorem process_track_effects_length : ∀ (effects : List Effect)
    (left right : List ℝ) (state_l state_r : ℝ),
    (process_track_effects effects left right state_l state_r).1.length =
      left.length ∧
    (process_track_effects effects left right state_l state_r).2.1.length =
      right.length := by
  intro effects
  induction effects with
  | nil => intro l r sl sr; exact ⟨rfl, rfl⟩
  | cons e es ih =>
      intro l r sl sr
      have h1 := processOneEffect_length e l r sl sr
      have h2 := ih (processOneEffect e l r sl sr).1
        (processOneEffect e l r sl sr).2.1
        (processOneEffect e l r sl sr).2.2.1
        (processOneEffect e l r sl sr).2.2.2
      simp only [process_track_effects]
      omega

theorem processTrack_length (frame_count : ℕ) (track : Track) (fstate : ℝ × ℝ) :
    (processTrack frame_count track fstate).2.2.1.length = frame_count ∧
    (processTrack frame_count track fstate).2.2.2.length = frame_count := by
  have hosc := oscFrames_length track.volume track.pan track.frequency
    frame_count track.phase
  simp only [processTrack]
  split_ifs with h
  · have := process_track_effects_length track.effects
      (oscFrames track.volume track.pan track.frequency track.phase frame_count).1
      (oscFrames track.volume track.pan track.frequency track.phase frame_count).2.1
      fstate.1 fstate.2
    omega
  · exact hosc

theorem rms_le_peak (xs : List ℝ) :
    trackMeterRms xs.length xs ≤ trackMeterPeak xs := by
  have hb0 : 0 ≤ trackMeterPeak xs := le_foldl_max xs 0
  have hmem : ∀ x ∈ xs, |x| ≤ trackMeterPeak xs := fun x hx =>
    mem_le_foldl_max xs 0 x hx
  have hS := sumsq_le_of_bound (trackMeterPeak xs) xs hmem
  have hS0 := sumsq_nonneg xs
  rw [trackMeterRms, foldl_add_sq, zero_add]
  rcases Nat.eq_zero_or_pos xs.length with hn | hn
  · rcases List.length_eq_zero.mp hn with rfl
    simp [trackMeterPeak]
  · have hnpos : (0 : ℝ) < (xs.length : ℝ) := by exact_mod_cast hn
    have hdiv : (xs.map (fun x => x * x)).sum / (xs.length : ℝ) ≤
        trackMeterPeak xs * trackMeterPeak xs := by
      rw [div_le_iff₀ hnpos]
      calc (xs.map (fun x => x * x)).sum
          ≤ (xs.length : ℝ) * (trackMeterPeak xs * trackMeterPeak xs) := hS
        _ = trackMeterPeak xs * trackMeterPeak xs * (xs.length : ℝ) := by ring
    calc Real.sqrt ((xs.map (fun x => x * x)).sum / (xs.length : ℝ))
        ≤ Real.sqrt (trackMeterPeak xs * trackMeterPeak xs) :=
          Real.sqrt_le_sqrt hdiv
      _ = trackMeterPeak xs := Real.sqrt_mul_self hb0

/-- Claim C7: the per-channel RMS written by the callback equals
`sqrt((Σ sample²)/frame_count)` over exactly this period's post-effects
samples (the buffers have length `frame_count` and the meter is a function of
them alone, with no smoothing across periods), both meters are nonnegative,
and RMS never exceeds the peak (the maximum absolute sample of the same
buffer). -/
theorem meter_spec (xs : List ℝ) (n frame_count : ℕ) (track : Track)
    (fstate : ℝ × ℝ) :
    trackMeterRms xs.length xs =
      Real.sqrt ((xs.map (fun x => x * x)).sum / (xs.length : ℝ)) ∧
    0 ≤ trackMeterRms n xs ∧
    0 ≤ trackMeterPeak xs ∧
    trackMeterRms xs.length xs ≤ trackMeterPeak xs ∧
    (processTrack frame_count track fstate).1.rms_level =
      (trackMeterRms frame_count (processTrack frame_count track fstate).2.2.1,
       trackMeterRms frame_count (processTrack frame_count track fstate).2.2.2) ∧
    (processTrack frame_count track fstate).1.peak_level =
      (trackMeterPeak (processTrack frame_count track fstate).2.2.1,
       trackMeterPeak (processTrack frame_count track fstate).2.2.2) ∧
    (processTrack frame_count track fstate).2.2.1.length = frame_count ∧
    (processTrack frame_count track fstate).2.2.2.length = frame_count := by
  refine ⟨?_, Real.sqrt_nonneg _, le_foldl_max xs 0, rms_le_peak xs, rfl, rfl,
    (processTrack_length frame_count track fstate).1,
    (processTrack_length frame_count track fstate).2⟩
  rw [trackMeterRms, foldl_add_sq, zero_add]

/-! ### C1 -/

theorem addBuffers_eq_addPair (out : List (ℝ × ℝ)) (left right : List ℝ) :
    addBuffers out left right = addPair out (left.zip right) := rfl

theorem addPair_replicate_zero : ∀ (out : List (ℝ × ℝ)) (n : ℕ),
    out.length = n → addPair out (List.replicate n ((0 : ℝ), (0 : ℝ))) = out := by
  intro out
  induction out with
  | nil => intro n h; subst h; rfl
  | cons p ps ih =>
      intro n h
      cases n with
      | zero => cases h
      | succ m =>
          simp only [List.replicate_succ, addPair, List.zipWith_cons_cons]
          have hm := ih m (by simpa using h)
          rw [addPair] at hm
          rw [hm]
          simp

theorem addPair_zip_length (out : List (ℝ × ℝ)) (left right : List ℝ) (n : ℕ)
    (ho : out.length = n) (hl : left.length = n) (hr : right.length = n) :
    (addPair out (left.zip right)).length = n := by
  simp [addPair, List.length_zipWith, List.length_zip, ho, hl, hr]

theorem mixTracks_out_eq_contribs (any_solo : Bool) (n : ℕ) :
    ∀ (tracks : List Track) (tIdx : ℕ) (fbank : ℕ → ℝ × ℝ)
      (out : List (ℝ × ℝ)), out.length = n →
      (mixTracks any_solo n tIdx tracks fbank out).2.2 =
        (contribs any_solo n tIdx tracks fbank).foldl addPair out := by
  intro tracks
  induction tracks with
  | nil => intro tIdx fbank out _; rfl
  | cons track rest ih =>
      intro tIdx fbank out hout
      cases hsk : trackSkipped any_solo track
      · have hlen := processTrack_length n track (fbank tIdx)
        simp only [mixTracks, contribs, hsk, Bool.false_eq_true, if_false,
          List.foldl_cons]
        have hcontr : trackContribution any_solo n track (fbank tIdx) =
            ((processTrack n track (fbank tIdx)).2.2.1).zip
              ((processTrack n track (fbank tIdx)).2.2.2) := by
          rw [trackContribution, if_neg]
          simp [hsk]
        rw [hcontr, ← addBuffers_eq_addPair]
        exact ih (tIdx + 1) _ _
          (by rw [addBuffers_eq_addPair]
              exact addPair_zip_length out _ _ n hout hlen.1 hlen.2)
      · simp only [mixTracks, contribs, hsk, if_true, List.foldl_cons]
        have hcontr : trackContribution any_solo n track (fbank tIdx) =
            List.replicate n ((0 : ℝ), (0 : ℝ)) := by
          rw [trackContribution, if_pos hsk]
        rw [hcontr, addPair_replicate_zero out n hout]
        exact ih (tIdx + 1) fbank out hout

/-- Claim C1: with the engine playing, a track is skipped by the mix loop
exactly when its mute flag is set, or its playing flag is clear, or some
track is soloed while this one is not; a skipped track contributes the zero
buffer and is passed over unprocessed (its state, the filter bank and the
output are untouched); the callback's output is the master-scaled pointwise
sum of the per-track contributions; and a muted track's contribution is zero
regardless of its other fields. -/
theorem mix_eligibility (e : AudioEngine) (fbank : ℕ → ℝ × ℝ) (n : ℕ) :
    (∀ track, trackSkipped (anySolo e.tracks) track = true ↔
      (track.mute = true ∨ track.playing = false ∨
        (anySolo e.tracks = true ∧ track.solo = false))) ∧
    (∀ track fstate, trackSkipped (anySolo e.tracks) track = true →
      trackContribution (anySolo e.tracks) n track fstate =
        List.replicate n (0, 0)) ∧
    (∀ track fstate, track.mute = true →
      trackContribution (anySolo e.tracks) n track fstate =
        List.replicate n (0, 0)) ∧
    (∀ track rest tIdx fbank2 out,
      trackSkipped (anySolo e.tracks) track = true →
      (mixTracks (anySolo e.tracks) n tIdx (track :: rest) fbank2 out).1 =
        track :: (mixTracks (anySolo e.tracks) n (tIdx + 1) rest fbank2 out).1 ∧
      (mixTracks (anySolo e.tracks) n tIdx (track :: rest) fbank2 out).2.1 =
        (mixTracks (anySolo e.tracks) n (tIdx + 1) rest fbank2 out).2.1 ∧
      (mixTracks (anySolo e.tracks) n tIdx (track :: rest) fbank2 out).2.2 =
        (mixTracks (anySolo e.tracks) n (tIdx + 1) rest fbank2 out).2.2) ∧
    (e.playing = true →
      (audio_callback e fbank n).2.2 =
        ((contribs (anySolo e.tracks) n 0 e.tracks fbank).foldl addPair
            (List.replicate n (0, 0))).map
          (fun p => (p.1 * e.master_volume, p.2 * e.master_volume))) := by
  refine ⟨?_, ?_, ?_, ?_, ?_⟩
  · intro track
    simp only [trackSkipped, Bool.or_eq_true, Bool.and_eq_true, Bool.not_eq_true']
    tauto
  · intro track fstate h
    rw [trackContribution, if_pos h]
  · intro track fstate h
    rw [trackContribution, if_pos]
    simp [trackSkipped, h]
  · intro track rest tIdx fbank2 out h
    refine ⟨?_, ?_, ?_⟩ <;> simp [mixTracks, h]
  · intro hp
    rw [audio_callback]
    simp only [hp, Bool.not_true, Bool.false_eq_true, if_false]
    rw [mixTracks_out_eq_contribs (anySolo e.tracks) n e.tracks 0 fbank
      (List.replicate n (0, 0)) (List.length_replicate n _)]

/-- Witness for C1: in a playing engine holding one muted track, that track's
contribution over a two-frame period is the zero buffer. -/
theorem mix_eligibility_witness :
    trackContribution (anySolo enginePlayingMuted.tracks) 2 mutedTrack (0, 0) =
      List.replicate 2 (0, 0) :=
  (mix_eligibility enginePlayingMuted (fun _ => (0, 0)) 2).2.2.1 mutedTrack (0, 0) rfl

/-! ### C10 -/

theorem mixTracks_cons (any_solo : Bool) (n tIdx : ℕ) (track : Track)
    (rest : List Track) (fbank : ℕ → ℝ × ℝ) (out : List (ℝ × ℝ)) :
    mixTracks any_solo n tIdx (track :: rest) fbank out =
      if trackSkipped any_solo track then
        (track :: (mixTracks any_solo n (tIdx + 1) rest fbank out).1,
         (mixTracks any_solo n (tIdx + 1) rest fbank out).2.1,
         (mixTracks any_solo n (tIdx + 1) rest fbank out).2.2)
      else
        ((processTrack n track (fbank tIdx)).1 ::
           (mixTracks any_solo n (tIdx + 1) rest
             (fun i => if i = tIdx then (processTrack n track (fbank tIdx)).2.1
               else fbank i)
             (addBuffers out (processTrack n track (fbank tIdx)).2.2.1
               (processTrack n track (fbank tIdx)).2.2.2)).1,
         (mixTracks any_solo n (tIdx + 1) rest
           (fun i => if i = tIdx then (processTrack n track (fbank tIdx)).2.1
             else fbank i)
           (addBuffers out (processTrack n track (fbank tIdx)).2.2.1
             (processTrack n track (fbank tIdx)).2.2.2)).2.1,
         (mixTracks any_solo n (tIdx + 1) rest
           (fun i => if i = tIdx then (processTrack n track (fbank tIdx)).2.1
             else fbank i)
           (addBuffers out (processTrack n track (fbank tIdx)).2.2.1
             (processTrack n track (fbank tIdx)).2.2.2)).2.2) := by
  simp only [mixTracks]

theorem mixTracks_skipped_getD (any_solo : Bool) (n : ℕ) :
    ∀ (tracks : List Track) (tIdx : ℕ) (fbank : ℕ → ℝ × ℝ)
      (out : List (ℝ × ℝ)) (t : ℕ) (dtr : Track), t < tracks.length →
      trackSkipped any_solo (tracks.getD t dtr) = true →
      (mixTracks any_solo n tIdx tracks fbank out).1.getD t dtr =
        tracks.getD t dtr := by
  intro tracks
  induction tracks with
  | nil => intro _ _ _ t _ ht _; simp at ht
  | cons track rest ih =>
      intro tIdx fbank out t dtr ht hsk
      cases t with
      | zero =>
          cases hsk0 : trackSkipped any_solo track
          · rw [List.getD_cons_zero] at hsk
            rw [hsk0] at hsk; cases hsk
          · rw [mixTracks_cons, if_pos hsk0, List.getD_cons_zero,
              List.getD_cons_zero]
      | succ j =>
          have hj : j < rest.length := by simpa using ht
          have hsk' : trackSkipped any_solo (rest.getD j dtr) = true := by
            rw [List.getD_cons_succ] at hsk
            exact hsk
          cases hsk0 : trackSkipped any_solo track
          · rw [mixTracks_cons, if_neg (by rw [hsk0]; exact Bool.false_ne_true),
              List.getD_cons_succ, List.getD_cons_succ]
            exact ih _ _ _ j dtr hj hsk'
          · rw [mixTracks_cons, if_pos hsk0, List.getD_cons_succ,
              List.getD_cons_succ]
            exact ih _ _ _ j dtr hj hsk'

/-- Claim C10: when the engine is playing, a track that the callback's
eligibility test skips keeps its `peak_level` and `rms_level` fields exactly
as they were before the callback (skipped tracks' meters are not zeroed; the
whole track is passed over unchanged). -/
theorem skipped_meters (e : AudioEngine) (fbank : ℕ → ℝ × ℝ) (n t : ℕ)
    (dtr : Track) (hp : e.playing = true) (ht : t < e.tracks.length)
    (hsk : trackSkipped (anySolo e.tracks) (e.tracks.getD t dtr) = true) :
    ((audio_callback e fbank n).1.tracks.getD t dtr).peak_level =
      (e.tracks.getD t dtr).peak_level ∧
    ((audio_callback e fbank n).1.tracks.getD t dtr).rms_level =
      (e.tracks.getD t dtr).rms_level := by
  have htr : (audio_callback e fbank n).1.tracks =
      (mixTracks (anySolo e.tracks) n 0 e.tracks fbank
        (List.replicate n (0, 0))).1 := by
    rw [audio_callback]
    simp only [hp, Bool.not_true, Bool.false_eq_true, if_false]
  rw [htr, mixTracks_skipped_getD (anySolo e.tracks) n e.tracks 0 fbank
    (List.replicate n (0, 0)) t dtr ht hsk]
  exact ⟨rfl, rfl⟩

/-- Witness for C10: in a playing engine with one muted track, the muted
track's meters after a callback equal its meters before. -/
theorem skipped_meters_witness :
    ((audio_callback enginePlayingMuted (fun _ => (0, 0)) 2).1.tracks.getD 0
        mutedTrack).peak_level =
      (enginePlayingMuted.tracks.getD 0 mutedTrack).peak_level ∧
    ((audio_callback enginePlayingMuted (fun _ => (0, 0)) 2).1.tracks.getD 0
        mutedTrack).rms_level =
      (enginePlayingMuted.tracks.getD 0 mutedTrack).rms_level :=
  skipped_meters enginePlayingMuted (fun _ => (0, 0)) 2 0 mutedTrack rfl
    (by simp [enginePlayingMuted]) rfl

end AirDAW
